import Mathlib

/-!
# Verification of the SR3 optimizer (`src/pysindy/optimizers/sr3.py`)

Shallow embedding of the SR3 (sparse relaxed regularized regression)
optimizer.  Numpy floating-point arrays are modelled as real-valued
matrices (`Matrix (Fin _) (Fin _) ℝ`); the arithmetic is exact real
arithmetic.  Matrices follow the orientation used inside `SR3._reduce`:
the design matrix `x` is `n_samples × n_features`, the target matrix `y`
is `n_samples × n_targets`, and the working coefficient iterates
(`coef_sparse`, `coef_full`) are `n_features × n_targets` (the public
`coef_` attribute stores the transpose, `n_targets × n_features`).

External collaborators that are part of the repository or its
dependencies but not under `src/` (the `BaseOptimizer` base class,
`get_prox`, `capped_simplex_projection`, scipy's `cho_factor` /
`cho_solve`) are modelled from the spec where a claim needs them; each
such definition carries a doc comment starting `Modelled from the
spec:`.
-/

namespace PySINDy

/-! ## Capped-simplex projection (spec-modelled collaborator) -/

/-- Clamp a real number to the interval `[0, 1]`
(`np.maximum(np.minimum(·, 1.0), 0.0)` in the reference algorithm). -/
noncomputable def clamp01 (z : ℝ) : ℝ := max 0 (min 1 z)

/-- The total mass of the shifted-and-clamped vector, as a function of the
shift `z`.  The capped-simplex projection picks the shift at which this
equals the prescribed total `(1 - trimming_fraction) * n`. -/
noncomputable def clampedSum {n : ℕ} (v : Fin n → ℝ) (z : ℝ) : ℝ :=
  ∑ i, clamp01 (v i - z)

/-- Modelled from the spec: `capped_simplex_projection` (in
`pysindy.utils`, not under `src/`) computes the exact Euclidean
projection onto the capped simplex by root finding: it shifts the input
vector by a scalar chosen so that the clamped result has total mass
`(1 - trimming_fraction) * n`, then clamps entrywise to `[0, 1]`.
`shiftRoot` is that scalar (an arbitrary root when one exists,
`0` otherwise). -/
noncomputable def shiftRoot {n : ℕ} (trimming_fraction : ℝ) (v : Fin n → ℝ) : ℝ :=
  letI := Classical.propDecidable
  if h : ∃ z : ℝ, clampedSum v z = (1 - trimming_fraction) * n then h.choose else 0

/-- Modelled from the spec: the capped-simplex projection used by the
trimming update (`capped_simplex_projection(trimming_array,
trimming_fraction)`): shift by `shiftRoot` and clamp every entry to
`[0, 1]`. -/
noncomputable def capped_simplex_projection {n : ℕ} (v : Fin n → ℝ)
    (trimming_fraction : ℝ) : Fin n → ℝ :=
  fun i => clamp01 (v i - shiftRoot trimming_fraction v)

/-! ## The SR3 object and its constructor (`SR3.__init__`, lines 133-212) -/

/-- The configuration attributes stored on the `SR3` object by
`__init__` / `enable_trimming` / `disable_trimming`.  The thresholder
name is a list of characters (a Python string); the per-entry threshold
matrix is a list of rows, as in numpy's 2-d array; `trimmingFraction` is
optional because `disable_trimming` stores Python's `None` there. -/
structure SR3 where
  threshold : ℝ
  thresholds : Option (List (List ℝ))
  nu : ℝ
  tol : ℝ
  thresholder : List Char
  useTrimming : Bool
  trimmingFraction : Option ℝ
  trimmingStepSize : ℝ
  maxIter : ℕ

/-- Lower-case a Python string (`str.lower`), character by character. -/
def strLower (s : List Char) : List Char := s.map Char.toLower

/-- The recognized thresholder names (lower-cased), from the membership
test in `__init__` (lines 164-172). -/
def validThresholders : List (List Char) :=
  ["l0".toList, "l1".toList, "l2".toList,
   "weighted_l0".toList, "weighted_l1".toList, "weighted_l2".toList,
   "cad".toList]

/-- The recognized weighted thresholder names (lower-cased). -/
def weightedThresholders : List (List Char) :=
  ["weighted_l0".toList, "weighted_l1".toList, "weighted_l2".toList]

/-- `thresholder[:8].lower() == "weighted"` (lines 177, 181, 189, 193). -/
def weightedPrefixTest (thresholder : List Char) : Prop :=
  strLower (thresholder.take 8) = "weighted".toList

instance (thresholder : List Char) : Decidable (weightedPrefixTest thresholder) := by
  unfold weightedPrefixTest; infer_instance

/-- `SR3.__init__` (lines 133-212).  Raising `ValueError` /
`NotImplementedError` is modelled as returning `Except.error` with the
corresponding message; a successful construction returns the stored
attributes.  The checks on lines 189-199 are verbatim repetitions of the
checks on lines 177-187 and therefore have no additional effect; they
are modelled once.  `np.any(thresholds < 0)` is the entrywise search for
a negative entry. -/
noncomputable def SR3.init (threshold : ℝ) (thresholds : Option (List (List ℝ)))
    (nu tol : ℝ) (thresholder : List Char)
    (trimming_fraction trimming_step_size : ℝ) (max_iter : ℕ) :
    Except String SR3 :=
  if threshold < 0 then Except.error "threshold cannot be negative"
  else if nu ≤ 0 then Except.error "nu must be positive"
  else if tol ≤ 0 then Except.error "tol must be positive"
  else if trimming_fraction < 0 ∨ 1 < trimming_fraction then
    Except.error "trimming fraction must be between 0 and 1"
  else if strLower thresholder ∉ validThresholders then
    Except.error "Please use a valid thresholder, l0, l1, l2, cad, weighted_l0, weighted_l1, weighted_l2."
  else if weightedPrefixTest thresholder ∧ thresholds.isNone then
    Except.error "weighted thresholder requires the thresholds parameter to be used"
  else if ¬ weightedPrefixTest thresholder ∧ thresholds.isSome then
    Except.error "The thresholds argument cannot be used without a weighted thresholder"
  else if (thresholds.getD []).any (fun row => row.any fun e => decide (e < 0)) then
    Except.error "thresholds cannot contain negative entries"
  else
    Except.ok
      { threshold := threshold
        thresholds := thresholds
        nu := nu
        tol := tol
        thresholder := thresholder
        useTrimming := if trimming_fraction = 0 then false else true
        trimmingFraction := some trimming_fraction
        trimmingStepSize := trimming_step_size
        maxIter := max_iter }

/-- `SR3.enable_trimming` (lines 214-225): stores the given fraction
without any validation and turns trimming on. -/
def SR3.enableTrimming (o : SR3) (trimming_fraction : ℝ) : SR3 :=
  { o with useTrimming := true, trimmingFraction := some trimming_fraction }

/-- `SR3.disable_trimming` (lines 227-230): turns trimming off and stores
`None` as the fraction. -/
def SR3.disableTrimming (o : SR3) : SR3 :=
  { o with useTrimming := false, trimmingFraction := none }

/-! ## The iteration loop (`SR3._reduce` and helpers, lines 232-329)

The loop is parameterized by the configuration attributes it reads
(`SR3Params`), the data `x`, `y`, and the proximal operator `prox`.
`get_prox` and the proximal-operator family live outside `src/`; the
loop treats the operator (with its fixed configured threshold or
thresholds matrix, lines 239-245) as an opaque map on coefficient
matrices. -/

/-- The configuration attributes read by `SR3._reduce` and its helpers.
When the loop actually runs with trimming enabled the stored
`trimming_fraction` is a number, so it is carried here as a plain real.
`maxIter` is the iteration budget of the `for` loop. -/
structure SR3Params where
  nu : ℝ
  tol : ℝ
  useTrimming : Bool
  trimmingFraction : ℝ
  trimmingStepSize : ℝ
  maxIter : ℕ

/-- The mutable state threaded through one run of `SR3._reduce`:
the working iterates `coef_sparse` and `coef_full`
(`n_features × n_targets`), the trimming weights, the two history lists
(most recent entry first — `history.headD _` is Python's
`history_[-1]`), the matrix whose Cholesky factorization is held in
`cho`, the cached `x_transpose_y`, and the `self.iters` counter. -/
structure IterState (n m t : ℕ) where
  coefSparse : Matrix (Fin m) (Fin t) ℝ
  coefFull : Matrix (Fin m) (Fin t) ℝ
  trimmingArray : Fin n → ℝ
  history : List (Matrix (Fin t) (Fin m) ℝ)
  historyTrimming : List (Fin n → ℝ)
  cho : Matrix (Fin m) (Fin m) ℝ
  xty : Matrix (Fin m) (Fin t) ℝ
  iters : ℕ

/-- `x * trimming_array.reshape(n_samples, 1)` (line 300): scale row `i`
of `x` by `w i`. -/
def scaleRows {n m : ℕ} (w : Fin n → ℝ) (x : Matrix (Fin n) (Fin m) ℝ) :
    Matrix (Fin n) (Fin m) ℝ :=
  Matrix.of fun i j => w i * x i j

/-- `np.diag(np.full(x.shape[1], 1.0 / self.nu))` (lines 295, 303): the
diagonal ridge term `I / ν`. -/
noncomputable def ridgeDiag (m : ℕ) (nu : ℝ) : Matrix (Fin m) (Fin m) ℝ :=
  nu⁻¹ • (1 : Matrix (Fin m) (Fin m) ℝ)

/-- Modelled from the spec: scipy's `cho_factor` / `cho_solve` (external
to the repository) factorize a symmetric-positive-definite matrix and
solve the linear system exactly.  `cho_factor` is modelled as the
identity (the state keeps the matrix itself) and `cho_solve A b` as
`A⁻¹ * b`, which is the exact solution whenever `A` is invertible. -/
noncomputable def cho_solve {m t : ℕ} (A : Matrix (Fin m) (Fin m) ℝ)
    (b : Matrix (Fin m) (Fin t) ℝ) : Matrix (Fin m) (Fin t) ℝ :=
  A⁻¹ * b

/-- `SR3._update_full_coef` (lines 232-237), without the `self.iters`
increment (the loop model advances the counter at the call site):
`b = x_transpose_y + coef_sparse / self.nu; coef_full = cho_solve(cho, b)`. -/
noncomputable def updateFullCoef {m t : ℕ} (nu : ℝ)
    (cho : Matrix (Fin m) (Fin m) ℝ) (x_transpose_y coef_sparse : Matrix (Fin m) (Fin t) ℝ) :
    Matrix (Fin m) (Fin t) ℝ :=
  cho_solve cho (x_transpose_y + nu⁻¹ • coef_sparse)

/-- `SR3._update_sparse_coef` (lines 239-245): apply the configured
proximal operator (with its fixed threshold or thresholds matrix) to the
full coefficients. -/
def updateSparseCoef {m t : ℕ} (prox : Matrix (Fin m) (Fin t) ℝ → Matrix (Fin m) (Fin t) ℝ)
    (coef_full : Matrix (Fin m) (Fin t) ℝ) : Matrix (Fin m) (Fin t) ℝ :=
  prox coef_full

/-- The gradient-descent-plus-projection core of
`SR3._update_trimming_array` (lines 247-253); the append to
`self.history_trimming_` performed by that method is done by the loop
model at the call site. -/
noncomputable def updateTrimmingArray {n : ℕ} (p : SR3Params)
    (trimming_array trimming_grad : Fin n → ℝ) : Fin n → ℝ :=
  capped_simplex_projection
    (fun i => trimming_array i - p.trimmingStepSize * trimming_grad i)
    p.trimmingFraction

/-- `trimming_grad = 0.5 * np.sum((y - x.dot(coef_full)) ** 2, axis=1)`
(line 306): per-sample one-half squared residual of the
full-coefficient prediction, summed across targets. -/
noncomputable def trimmingGrad {n m t : ℕ} (x : Matrix (Fin n) (Fin m) ℝ)
    (y : Matrix (Fin n) (Fin t) ℝ) (coef_full : Matrix (Fin m) (Fin t) ℝ) :
    Fin n → ℝ :=
  fun i => (1 / 2 : ℝ) * ∑ j, (y i j - (x * coef_full) i j) ^ 2

/-- `SR3._convergence_criterion` (lines 255-274).  `history.headD 0` is
`history_[-1]` (the loop never calls this with an empty history, so the
default is irrelevant), and the `len(...) > 1` branch selects
`history_[-2]` or an all-zero array. -/
noncomputable def convergenceCriterion {n m t : ℕ} (p : SR3Params)
    (s : IterState n m t) : ℝ :=
  let this_coef := s.history.headD 0
  let last_coef := if 1 < s.history.length then s.history.tail.headD 0 else 0
  let err_coef := Real.sqrt (∑ i, ∑ j, (this_coef i j - last_coef i j) ^ 2) / p.nu
  if p.useTrimming then
    let this_trimming := s.historyTrimming.headD 0
    let last_trimming :=
      if 1 < s.historyTrimming.length then s.historyTrimming.tail.headD 0 else 0
    err_coef + Real.sqrt (∑ i, (this_trimming i - last_trimming i) ^ 2) / p.trimmingStepSize
  else err_coef

/-- The gradient that one iteration of the loop body feeds to the
trimming update: line 306 reads `coef_full` *before* the update on line
307, so this is the residual gradient of the previous iteration's full
coefficients (on the first iteration, of the copied initial sparse
guess, line 289). -/
noncomputable def stepTrimmingGrad {n m t : ℕ} (x : Matrix (Fin n) (Fin m) ℝ)
    (y : Matrix (Fin n) (Fin t) ℝ) (s : IterState n m t) : Fin n → ℝ :=
  trimmingGrad x y s.coefFull

/-- One iteration of the `for` loop body in `SR3._reduce`
(lines 298-314), up to but not including the convergence test:
with trimming, recompute `cho` and `x_transpose_y` from the weighted
design matrix and take the residual gradient of the previous full
coefficients (lines 299-306); update the full and sparse coefficients
and append to the history (lines 307-309); with trimming, update the
weights and append them to the trimming history (lines 311-314).
`self.iters` is incremented once, inside `_update_full_coef`. -/
noncomputable def sr3Step {n m t : ℕ} (p : SR3Params)
    (x : Matrix (Fin n) (Fin m) ℝ) (y : Matrix (Fin n) (Fin t) ℝ)
    (prox : Matrix (Fin m) (Fin t) ℝ → Matrix (Fin m) (Fin t) ℝ)
    (s : IterState n m t) : IterState n m t :=
  let cho := if p.useTrimming then
      (scaleRows s.trimmingArray x).transpose * x + ridgeDiag m p.nu
    else s.cho
  let xty := if p.useTrimming then (scaleRows s.trimmingArray x).transpose * y else s.xty
  let coef_full := updateFullCoef p.nu cho xty s.coefSparse
  let coef_sparse := updateSparseCoef prox coef_full
  let trimming_array := if p.useTrimming then
      updateTrimmingArray p s.trimmingArray (stepTrimmingGrad x y s)
    else s.trimmingArray
  { coefSparse := coef_sparse
    coefFull := coef_full
    trimmingArray := trimming_array
    history := coef_sparse.transpose :: s.history
    historyTrimming := if p.useTrimming then trimming_array :: s.historyTrimming
      else s.historyTrimming
    cho := cho
    xty := xty
    iters := s.iters + 1 }

/-- The `for`/`else` loop of `SR3._reduce` (lines 298-325), by fuel.
Returns the final state together with `true` when the loop exited via
`break` (the convergence criterion dropped below `tol`) and `false`
when the iteration budget was exhausted (the `else:` branch, which
issues the `ConvergenceWarning`). -/
noncomputable def sr3Loop {n m t : ℕ} (p : SR3Params)
    (x : Matrix (Fin n) (Fin m) ℝ) (y : Matrix (Fin n) (Fin t) ℝ)
    (prox : Matrix (Fin m) (Fin t) ℝ → Matrix (Fin m) (Fin t) ℝ) :
    ℕ → IterState n m t → IterState n m t × Bool
  | 0, s => (s, false)
  | fuel + 1, s =>
    let s1 := sr3Step p x y prox s
    if convergenceCriterion p s1 < p.tol then (s1, true)
    else sr3Loop p x y prox fuel s1

/-- The state prepared by `SR3._reduce` before the loop (lines 282-296):
`coef_sparse = self.coef_.T`; with trimming, `coef_full` is a copy of
`coef_sparse` and the weights start uniformly at
`1 - trimming_fraction`, recorded as the first trimming-history entry
(lines 288-291); `cho` and `x_transpose_y` are precomputed from the
unweighted data (lines 293-296).  Modelled from the spec: the base
class (`BaseOptimizer`, not under `src/`) starts each fit with an empty
coefficient history (entries are recorded starting at iteration 1, and
the first convergence comparison treats the previous iterate as the
zero matrix) and with the iteration counter `self.iters` at zero.
When trimming is disabled the Python code leaves `coef_full` and
`trimming_array` undefined before the first iteration; the model gives
them the same initial values as the trimming branch, which the
trimming-disabled loop body never reads. -/
noncomputable def sr3InitState {n m t : ℕ} (p : SR3Params)
    (x : Matrix (Fin n) (Fin m) ℝ) (y : Matrix (Fin n) (Fin t) ℝ)
    (coef0 : Matrix (Fin t) (Fin m) ℝ) : IterState n m t :=
  { coefSparse := coef0.transpose
    coefFull := coef0.transpose
    trimmingArray := fun _ => 1 - p.trimmingFraction
    history := []
    historyTrimming := if p.useTrimming then [fun _ => 1 - p.trimmingFraction] else []
    cho := x.transpose * x + ridgeDiag m p.nu
    xty := x.transpose * y
    iters := 0 }

/-- The results stored by `SR3._reduce` when it returns (lines 319-329):
`coef_` and `coef_full_` (transposed back to target-major layout), the
trimming weights (only set when trimming is in use), the coefficient
history, the iteration counter, and whether the `ConvergenceWarning`
was emitted (the `for`/`else` branch, taken exactly when the loop never
hit `break`). -/
structure SR3Output (n m t : ℕ) where
  coef : Matrix (Fin t) (Fin m) ℝ
  coefFull : Matrix (Fin t) (Fin m) ℝ
  trimmingArray : Option (Fin n → ℝ)
  history : List (Matrix (Fin t) (Fin m) ℝ)
  iters : ℕ
  warned : Bool

/-- `SR3._reduce` (lines 276-329).  The initial-guess seeding on lines
282-283 is reflected by `coef0` being the seeded value of `self.coef_`.
The method raises no exception on any path modelled here; exhausting
the budget only sets the warning flag. -/
noncomputable def sr3Reduce {n m t : ℕ} (p : SR3Params)
    (x : Matrix (Fin n) (Fin m) ℝ) (y : Matrix (Fin n) (Fin t) ℝ)
    (prox : Matrix (Fin m) (Fin t) ℝ → Matrix (Fin m) (Fin t) ℝ)
    (coef0 : Matrix (Fin t) (Fin m) ℝ) : SR3Output n m t :=
  let r := sr3Loop p x y prox p.maxIter (sr3InitState p x y coef0)
  { coef := r.1.coefSparse.transpose
    coefFull := r.1.coefFull.transpose
    trimmingArray := if p.useTrimming then some r.1.trimmingArray else none
    history := r.1.history
    iters := r.1.iters
    warned := !r.2 }

/-! ## Spec-side definitions

Definitions written from the spec's wording, used to state refinement
claims against the source-translated definitions above. -/

/-- The Frobenius norm of a matrix, following the spec's words: the
`ℓ²` (Euclidean) norm of the matrix read as one long vector.  Stated
through Mathlib's `EuclideanSpace` norm so that the equality with the
source's `np.sqrt(np.sum(A ** 2))` is a theorem, not a definition. -/
noncomputable def frobeniusNorm {t m : ℕ} (M : Matrix (Fin t) (Fin m) ℝ) : ℝ :=
  ‖(WithLp.equiv 2 (Fin t × Fin m → ℝ)).symm (fun q => M q.1 q.2)‖

/-- The Euclidean norm of a vector, via Mathlib's `EuclideanSpace`. -/
noncomputable def euclideanNorm {n : ℕ} (v : Fin n → ℝ) : ℝ :=
  ‖(WithLp.equiv 2 (Fin n → ℝ)).symm v‖

/-! ## Concrete instances used by the witnesses -/

/-- The `1 × 1` real matrix with the given entry. -/
def cM (a : ℝ) : Matrix (Fin 1) (Fin 1) ℝ := Matrix.of fun _ _ => a

/-- A degenerate proximal operator (constantly the zero matrix), used
only to build concrete witnesses; the loop theorems hold for an
arbitrary operator. -/
def proxZero {m t : ℕ} : Matrix (Fin m) (Fin t) ℝ → Matrix (Fin m) (Fin t) ℝ :=
  fun _ => 0

/-- Concrete parameters with trimming disabled. -/
noncomputable def pNT : SR3Params :=
  { nu := 1, tol := 1, useTrimming := false, trimmingFraction := 0
    trimmingStepSize := 1, maxIter := 1 }

/-- Concrete parameters with trimming disabled and a tolerance the
(nonnegative) criterion can never undercut, so the one-iteration budget
is always exhausted. -/
noncomputable def pW6 : SR3Params :=
  { nu := 1, tol := -1, useTrimming := false, trimmingFraction := 0
    trimmingStepSize := 1, maxIter := 1 }

/-- Concrete parameters with trimming enabled. -/
noncomputable def pTR : SR3Params :=
  { nu := 1, tol := 1, useTrimming := true, trimmingFraction := 1 / 2
    trimmingStepSize := 1, maxIter := 1 }

/-- A concrete `1`-sample, `1`-feature, `1`-target iteration state whose
history already holds one (zero) entry. -/
noncomputable def sHist0 : IterState 1 1 1 :=
  { coefSparse := 0, coefFull := 0, trimmingArray := fun _ => 0
    history := [0], historyTrimming := [], cho := 0, xty := 0, iters := 0 }

/-- A concrete iteration state for the trimming-enabled step: zero
coefficients, unit trimming weight. -/
noncomputable def sTR : IterState 1 1 1 :=
  { coefSparse := 0, coefFull := 0, trimmingArray := fun _ => 1
    history := [], historyTrimming := [], cho := 0, xty := 0, iters := 0 }

/-! ## Helper lemmas -/

theorem frobeniusNorm_eq {t m : ℕ} (M : Matrix (Fin t) (Fin m) ℝ) :
    frobeniusNorm M = Real.sqrt (∑ i, ∑ j, M i j ^ 2) := by
  rw [frobeniusNorm, EuclideanSpace.norm_eq]
  simp [WithLp.equiv_symm_pi_apply, Real.norm_eq_abs, sq_abs, Fintype.sum_prod_type]

theorem euclideanNorm_eq {n : ℕ} (v : Fin n → ℝ) :
    euclideanNorm v = Real.sqrt (∑ i, v i ^ 2) := by
  rw [euclideanNorm, EuclideanSpace.norm_eq]
  simp [WithLp.equiv_symm_pi_apply, Real.norm_eq_abs, sq_abs]

theorem cM_one : cM 1 = 1 := by
  ext i j
  simp [cM, Matrix.one_apply, Subsingleton.elim i j]

theorem cM_mul (a b : ℝ) : cM a * cM b = cM (a * b) := by
  ext i j
  simp [cM, Matrix.mul_apply]

theorem cM_add (a b : ℝ) : cM a + cM b = cM (a + b) := rfl

theorem cM_transpose (a : ℝ) : (cM a).transpose = cM a := rfl

theorem cM_smul (c a : ℝ) : c • cM a = cM (c * a) := rfl

theorem ridgeDiag_one (nu : ℝ) : ridgeDiag 1 nu = cM nu⁻¹ := by
  ext i j
  simp [ridgeDiag, cM, Matrix.one_apply, Subsingleton.elim i j]

theorem scaleRows_cM (w a : ℝ) : scaleRows (fun _ => w) (cM a) = cM (w * a) := rfl

theorem cM_inv (a : ℝ) (ha : a ≠ 0) : (cM a)⁻¹ = cM a⁻¹ := by
  apply Matrix.inv_eq_right_inv
  rw [cM_mul, mul_inv_cancel₀ ha, cM_one]

theorem convergenceCriterion_nonneg {n m t : ℕ} (p : SR3Params) (s : IterState n m t)
    (hnu : 0 ≤ p.nu) (hstep : 0 ≤ p.trimmingStepSize) :
    0 ≤ convergenceCriterion p s := by
  cases h : p.useTrimming <;> simp only [convergenceCriterion, h] <;> simp
  · exact div_nonneg (Real.sqrt_nonneg _) hnu
  · exact add_nonneg (div_nonneg (Real.sqrt_nonneg _) hnu)
      (div_nonneg (Real.sqrt_nonneg _) hstep)

theorem criterion_zero_of_repeat {n m t : ℕ} (p : SR3Params) (s : IterState n m t)
    (V : Matrix (Fin t) (Fin m) ℝ) (rest : List (Matrix (Fin t) (Fin m) ℝ))
    (hT : p.useTrimming = false) (hh : s.history = V :: V :: rest) :
    convergenceCriterion p s = 0 := by
  simp [convergenceCriterion, hT, hh]

theorem sr3Loop_stop {n m t : ℕ} (p : SR3Params) (x : Matrix (Fin n) (Fin m) ℝ)
    (y : Matrix (Fin n) (Fin t) ℝ) (prox : Matrix (Fin m) (Fin t) ℝ → Matrix (Fin m) (Fin t) ℝ)
    (s0 : IterState n m t) (fuel : ℕ)
    (h : convergenceCriterion p (sr3Step p x y prox s0) < p.tol) :
    sr3Loop p x y prox (fuel + 1) s0 = (sr3Step p x y prox s0, true) := by
  simp only [sr3Loop]
  rw [if_pos h]

theorem sr3Loop_continue {n m t : ℕ} (p : SR3Params) (x : Matrix (Fin n) (Fin m) ℝ)
    (y : Matrix (Fin n) (Fin t) ℝ) (prox : Matrix (Fin m) (Fin t) ℝ → Matrix (Fin m) (Fin t) ℝ)
    (s0 : IterState n m t) (fuel : ℕ)
    (h : ¬ convergenceCriterion p (sr3Step p x y prox s0) < p.tol) :
    sr3Loop p x y prox (fuel + 1) s0 = sr3Loop p x y prox fuel (sr3Step p x y prox s0) := by
  simp only [sr3Loop]
  rw [if_neg h]

theorem getD_one_of_short {α : Type _} (l : List α) (d : α) :
    (if 1 < l.length then l[1]?.getD d else d) = l[1]?.getD d := by
  rcases l with _ | ⟨a, _ | ⟨b, r⟩⟩ <;> simp

theorem sr3Step_iters {n m t : ℕ} (p : SR3Params) (x : Matrix (Fin n) (Fin m) ℝ)
    (y : Matrix (Fin n) (Fin t) ℝ)
    (prox : Matrix (Fin m) (Fin t) ℝ → Matrix (Fin m) (Fin t) ℝ) (s : IterState n m t) :
    (sr3Step p x y prox s).iters = s.iters + 1 := rfl

theorem sr3Step_history_length {n m t : ℕ} (p : SR3Params) (x : Matrix (Fin n) (Fin m) ℝ)
    (y : Matrix (Fin n) (Fin t) ℝ)
    (prox : Matrix (Fin m) (Fin t) ℝ → Matrix (Fin m) (Fin t) ℝ) (s : IterState n m t) :
    (sr3Step p x y prox s).history.length = s.history.length + 1 := rfl

theorem sr3Step_history_headD {n m t : ℕ} (p : SR3Params) (x : Matrix (Fin n) (Fin m) ℝ)
    (y : Matrix (Fin n) (Fin t) ℝ)
    (prox : Matrix (Fin m) (Fin t) ℝ → Matrix (Fin m) (Fin t) ℝ) (s : IterState n m t) :
    (sr3Step p x y prox s).history.headD 0 = (sr3Step p x y prox s).coefSparse.transpose := rfl

theorem sr3Loop_length {n m t : ℕ} (p : SR3Params) (x : Matrix (Fin n) (Fin m) ℝ)
    (y : Matrix (Fin n) (Fin t) ℝ)
    (prox : Matrix (Fin m) (Fin t) ℝ → Matrix (Fin m) (Fin t) ℝ) :
    ∀ (fuel : ℕ) (s : IterState n m t),
      (sr3Loop p x y prox fuel s).1.history.length + s.iters
        = s.history.length + (sr3Loop p x y prox fuel s).1.iters := by
  intro fuel
  induction fuel with
  | zero => intro s; simp [sr3Loop]
  | succ k ih =>
    intro s
    by_cases h : convergenceCriterion p (sr3Step p x y prox s) < p.tol
    · rw [sr3Loop_stop p x y prox s k h]
      rw [sr3Step_history_length, sr3Step_iters]
      omega
    · rw [sr3Loop_continue p x y prox s k h]
      have h2 := ih (sr3Step p x y prox s)
      rw [sr3Step_history_length, sr3Step_iters] at h2
      omega

theorem sr3Loop_headD_inv {n m t : ℕ} (p : SR3Params) (x : Matrix (Fin n) (Fin m) ℝ)
    (y : Matrix (Fin n) (Fin t) ℝ)
    (prox : Matrix (Fin m) (Fin t) ℝ → Matrix (Fin m) (Fin t) ℝ) :
    ∀ (fuel : ℕ) (s : IterState n m t),
      s.history.headD 0 = s.coefSparse.transpose →
      (sr3Loop p x y prox fuel s).1.history.headD 0
        = (sr3Loop p x y prox fuel s).1.coefSparse.transpose := by
  intro fuel
  induction fuel with
  | zero => intro s hs; simpa [sr3Loop] using hs
  | succ k ih =>
    intro s _
    by_cases h : convergenceCriterion p (sr3Step p x y prox s) < p.tol
    · rw [sr3Loop_stop p x y prox s k h]
      exact sr3Step_history_headD p x y prox s
    · rw [sr3Loop_continue p x y prox s k h]
      exact ih (sr3Step p x y prox s) (sr3Step_history_headD p x y prox s)

theorem sr3Loop_headD_pos {n m t : ℕ} (p : SR3Params) (x : Matrix (Fin n) (Fin m) ℝ)
    (y : Matrix (Fin n) (Fin t) ℝ)
    (prox : Matrix (Fin m) (Fin t) ℝ → Matrix (Fin m) (Fin t) ℝ)
    (fuel : ℕ) (s : IterState n m t) :
    (sr3Loop p x y prox (fuel + 1) s).1.history.headD 0
      = (sr3Loop p x y prox (fuel + 1) s).1.coefSparse.transpose := by
  by_cases h : convergenceCriterion p (sr3Step p x y prox s) < p.tol
  · rw [sr3Loop_stop p x y prox s fuel h]
    exact sr3Step_history_headD p x y prox s
  · rw [sr3Loop_continue p x y prox s fuel h]
    exact sr3Loop_headD_inv p x y prox fuel (sr3Step p x y prox s)
      (sr3Step_history_headD p x y prox s)

/-! ## Claim theorems -/

/-- C1: the convergence criterion computed after an iteration equals
`‖V_k − V_{k-1}‖₂ / ν` (Frobenius norm, with `V_{-1}` the zero matrix
on the first comparison), plus `‖t_k − t_{k-1}‖₂ / trimming_step_size`
when trimming is active; and the loop stops (breaks with the current
state) as soon as this combined scalar is below the configured
tolerance. -/
theorem convergence_criterion_formula {n m t : ℕ} (p : SR3Params) (s : IterState n m t)
    (_hh : s.history ≠ []) :
    convergenceCriterion p s
      = frobeniusNorm (s.history.headD 0 - s.history.tail.headD 0) / p.nu
        + (if p.useTrimming then
            euclideanNorm (s.historyTrimming.headD 0 - s.historyTrimming.tail.headD 0)
              / p.trimmingStepSize
           else 0)
    ∧ ∀ (x : Matrix (Fin n) (Fin m) ℝ) (y : Matrix (Fin n) (Fin t) ℝ)
        (prox : Matrix (Fin m) (Fin t) ℝ → Matrix (Fin m) (Fin t) ℝ) (fuel : ℕ)
        (s0 : IterState n m t),
        convergenceCriterion p (sr3Step p x y prox s0) < p.tol →
        sr3Loop p x y prox (fuel + 1) s0 = (sr3Step p x y prox s0, true) := by
  constructor
  · rw [convergenceCriterion, frobeniusNorm_eq, euclideanNorm_eq]
    cases hT : p.useTrimming <;>
      simp [hT, Matrix.sub_apply, Pi.sub_apply, getD_one_of_short]
  · intro x y prox fuel s0 hlt
    exact sr3Loop_stop p x y prox s0 fuel hlt

/-- Witness for C1, at a concrete one-dimensional state. -/
theorem convergence_criterion_formula_witness :
    sHist0.history ≠ []
    ∧ sr3Loop pNT 0 0 proxZero 1 sHist0 = (sr3Step pNT 0 0 proxZero sHist0, true) := by
  have hmain := convergence_criterion_formula pNT sHist0 (by simp [sHist0])
  refine ⟨by simp [sHist0], ?_⟩
  apply hmain.2 0 0 proxZero 0 sHist0
  have hh : (sr3Step pNT 0 0 proxZero sHist0).history
      = 0 :: 0 :: ([] : List (Matrix (Fin 1) (Fin 1) ℝ)) := by
    simp [sr3Step, updateSparseCoef, proxZero, sHist0]
  rw [criterion_zero_of_repeat pNT _ 0 [] rfl hh]
  norm_num [pNT]

/-- C7: if the newly appended history entry is identical to the
previous one and trimming is disabled, the convergence criterion is
`0`, and with any positive tolerance the loop exits on that iteration
(returning the post-step state, with no further updates). -/
theorem identical_iterates_stop {n m t : ℕ} (p : SR3Params) (x : Matrix (Fin n) (Fin m) ℝ)
    (y : Matrix (Fin n) (Fin t) ℝ)
    (prox : Matrix (Fin m) (Fin t) ℝ → Matrix (Fin m) (Fin t) ℝ)
    (s0 : IterState n m t) (fuel : ℕ) (V : Matrix (Fin t) (Fin m) ℝ)
    (rest : List (Matrix (Fin t) (Fin m) ℝ))
    (hT : p.useTrimming = false) (htol : 0 < p.tol)
    (hh : (sr3Step p x y prox s0).history = V :: V :: rest) :
    convergenceCriterion p (sr3Step p x y prox s0) = 0
    ∧ sr3Loop p x y prox (fuel + 1) s0 = (sr3Step p x y prox s0, true) := by
  have h0 := criterion_zero_of_repeat p (sr3Step p x y prox s0) V rest hT hh
  exact ⟨h0, sr3Loop_stop p x y prox s0 fuel (by rw [h0]; exact htol)⟩

/-- Witness for C7, at a concrete one-dimensional state whose step
repeats the previous sparse iterate. -/
theorem identical_iterates_stop_witness :
    pNT.useTrimming = false ∧ (0 : ℝ) < pNT.tol
    ∧ convergenceCriterion pNT (sr3Step pNT 0 0 proxZero sHist0) = 0
    ∧ sr3Loop pNT 0 0 proxZero 1 sHist0 = (sr3Step pNT 0 0 proxZero sHist0, true) := by
  have hh : (sr3Step pNT 0 0 proxZero sHist0).history
      = 0 :: 0 :: ([] : List (Matrix (Fin 1) (Fin 1) ℝ)) := by
    simp [sr3Step, updateSparseCoef, proxZero, sHist0]
  have hmain := identical_iterates_stop pNT 0 0 proxZero sHist0 0 0 [] rfl
    (by norm_num [pNT]) hh
  exact ⟨rfl, by norm_num [pNT], hmain.1, hmain.2⟩

/-- C9: `enable_trimming` and `disable_trimming` are total:
`enable_trimming f` turns trimming on and stores `f` unvalidated (any
real value, including ones the constructor rejects), and
`disable_trimming` turns trimming off and stores `None`. -/
theorem enable_disable_trimming_behavior (o : SR3) (f : ℝ) :
    (SR3.enableTrimming o f).useTrimming = true
    ∧ (SR3.enableTrimming o f).trimmingFraction = some f
    ∧ (SR3.disableTrimming o).useTrimming = false
    ∧ (SR3.disableTrimming o).trimmingFraction = none :=
  ⟨rfl, rfl, rfl, rfl⟩

/-- C10: after a terminating run that performed at least one iteration,
the stored `coef_` equals the most recently appended history entry, and
exactly one history entry was appended per completed iteration (the
history length equals the iteration count, which starts at zero and is
advanced once per loop iteration). -/
theorem coef_matches_history {n m t : ℕ} (p : SR3Params) (x : Matrix (Fin n) (Fin m) ℝ)
    (y : Matrix (Fin n) (Fin t) ℝ)
    (prox : Matrix (Fin m) (Fin t) ℝ → Matrix (Fin m) (Fin t) ℝ)
    (coef0 : Matrix (Fin t) (Fin m) ℝ)
    (h1 : 1 ≤ (sr3Reduce p x y prox coef0).iters) :
    (sr3Reduce p x y prox coef0).history.length = (sr3Reduce p x y prox coef0).iters
    ∧ (sr3Reduce p x y prox coef0).coef = (sr3Reduce p x y prox coef0).history.headD 0 := by
  constructor
  · have hlen := sr3Loop_length p x y prox p.maxIter (sr3InitState p x y coef0)
    have hi : (sr3InitState p x y coef0).iters = 0 := rfl
    have hh : (sr3InitState p x y coef0).history.length = 0 := rfl
    simp only [sr3Reduce]
    omega
  · rcases hmi : p.maxIter with _ | k
    · exfalso
      simp only [sr3Reduce, hmi, sr3Loop] at h1
      exact absurd h1 (by simp [sr3InitState])
    · simp only [sr3Reduce, hmi]
      exact (sr3Loop_headD_pos p x y prox k (sr3InitState p x y coef0)).symm

/-- Witness for C10: a concrete one-iteration run. -/
theorem coef_matches_history_witness :
    (sr3Reduce pW6 (cM 1) (cM 1) id (0 : Matrix (Fin 1) (Fin 1) ℝ)).history.length
        = (sr3Reduce pW6 (cM 1) (cM 1) id 0).iters
    ∧ (sr3Reduce pW6 (cM 1) (cM 1) id (0 : Matrix (Fin 1) (Fin 1) ℝ)).coef
        = (sr3Reduce pW6 (cM 1) (cM 1) id 0).history.headD 0 := by
  apply coef_matches_history
  have hne : ¬ convergenceCriterion pW6
      (sr3Step pW6 (cM 1) (cM 1) id (sr3InitState pW6 (cM 1) (cM 1) 0)) < pW6.tol := by
    intro hlt
    have h0 := convergenceCriterion_nonneg pW6
      (sr3Step pW6 (cM 1) (cM 1) id (sr3InitState pW6 (cM 1) (cM 1) 0))
      (by norm_num [pW6]) (by norm_num [pW6])
    have : pW6.tol = -1 := rfl
    linarith [hlt, h0]
  have hloop : sr3Loop pW6 (cM 1) (cM 1) id 1 (sr3InitState pW6 (cM 1) (cM 1) 0)
      = (sr3Step pW6 (cM 1) (cM 1) id (sr3InitState pW6 (cM 1) (cM 1) 0), false) := by
    have h2 := sr3Loop_continue pW6 (cM 1) (cM 1) id (sr3InitState pW6 (cM 1) (cM 1) 0) 0 hne
    simpa [sr3Loop] using h2
  show 1 ≤ (sr3Reduce pW6 (cM 1) (cM 1) id 0).iters
  have hm : pW6.maxIter = 1 := rfl
  simp only [sr3Reduce, hm, hloop]
  have h3 : (sr3Step pW6 (cM 1) (cM 1) id (sr3InitState pW6 (cM 1) (cM 1) 0)).iters = 1 := rfl
  omega

/-- C6: if the loop exhausts its `max_iter` budget without the
criterion dropping below tolerance, `_reduce` still returns (the model
is total on this path): the warning flag is set and the last iterates
are stored as the final sparse coefficients, full coefficients, history
and (when trimming is active) trimming weights. -/
theorem budget_exhaustion_warns {n m t : ℕ} (p : SR3Params) (x : Matrix (Fin n) (Fin m) ℝ)
    (y : Matrix (Fin n) (Fin t) ℝ)
    (prox : Matrix (Fin m) (Fin t) ℝ → Matrix (Fin m) (Fin t) ℝ)
    (coef0 : Matrix (Fin t) (Fin m) ℝ) (s : IterState n m t)
    (h : sr3Loop p x y prox p.maxIter (sr3InitState p x y coef0) = (s, false)) :
    (sr3Reduce p x y prox coef0).warned = true
    ∧ (sr3Reduce p x y prox coef0).coef = s.coefSparse.transpose
    ∧ (sr3Reduce p x y prox coef0).coefFull = s.coefFull.transpose
    ∧ (p.useTrimming = true →
        (sr3Reduce p x y prox coef0).trimmingArray = some s.trimmingArray)
    ∧ (sr3Reduce p x y prox coef0).history = s.history := by
  refine ⟨?_, ?_, ?_, ?_, ?_⟩ <;> simp [sr3Reduce, h]

/-- Witness for C6: a concrete run whose one-iteration budget is
exhausted. -/
theorem budget_exhaustion_warns_witness :
    (sr3Reduce pW6 (cM 1) (cM 1) id (0 : Matrix (Fin 1) (Fin 1) ℝ)).warned = true
    ∧ (sr3Reduce pW6 (cM 1) (cM 1) id 0).coef
        = (sr3Step pW6 (cM 1) (cM 1) id (sr3InitState pW6 (cM 1) (cM 1) 0)).coefSparse.transpose
    ∧ (sr3Reduce pW6 (cM 1) (cM 1) id 0).coefFull
        = (sr3Step pW6 (cM 1) (cM 1) id (sr3InitState pW6 (cM 1) (cM 1) 0)).coefFull.transpose
    ∧ (sr3Reduce pW6 (cM 1) (cM 1) id 0).history
        = (sr3Step pW6 (cM 1) (cM 1) id (sr3InitState pW6 (cM 1) (cM 1) 0)).history := by
  have hne : ¬ convergenceCriterion pW6
      (sr3Step pW6 (cM 1) (cM 1) id (sr3InitState pW6 (cM 1) (cM 1) 0)) < pW6.tol := by
    intro hlt
    have h0 := convergenceCriterion_nonneg pW6
      (sr3Step pW6 (cM 1) (cM 1) id (sr3InitState pW6 (cM 1) (cM 1) 0))
      (by norm_num [pW6]) (by norm_num [pW6])
    have ht : pW6.tol = -1 := rfl
    linarith [hlt, h0]
  have hloop : sr3Loop pW6 (cM 1) (cM 1) id pW6.maxIter (sr3InitState pW6 (cM 1) (cM 1) 0)
      = (sr3Step pW6 (cM 1) (cM 1) id (sr3InitState pW6 (cM 1) (cM 1) 0), false) := by
    have h2 := sr3Loop_continue pW6 (cM 1) (cM 1) id (sr3InitState pW6 (cM 1) (cM 1) 0) 0 hne
    have hm : pW6.maxIter = 0 + 1 := rfl
    rw [hm, h2, sr3Loop]
  have hmain := budget_exhaustion_warns pW6 (cM 1) (cM 1) id 0
    (sr3Step pW6 (cM 1) (cM 1) id (sr3InitState pW6 (cM 1) (cM 1) 0)) hloop
  exact ⟨hmain.1, hmain.2.1, hmain.2.2.1, hmain.2.2.2.2⟩

/-- C2: with trimming disabled, each iteration's full-coefficient
update is the exact solution of the ridge-anchored normal equations
`(XᵀX + I/ν) W = XᵀY + V/ν`, where `V` is the sparse iterate from the
previous step; the cached matrix and `XᵀY` are left untouched by the
step, so the invariant under which this holds is preserved. -/
theorem full_coef_solves_ridge_system {n m t : ℕ} (p : SR3Params)
    (x : Matrix (Fin n) (Fin m) ℝ) (y : Matrix (Fin n) (Fin t) ℝ)
    (prox : Matrix (Fin m) (Fin t) ℝ → Matrix (Fin m) (Fin t) ℝ) (s : IterState n m t)
    (hT : p.useTrimming = false)
    (hcho : s.cho = x.transpose * x + ridgeDiag m p.nu)
    (hxty : s.xty = x.transpose * y)
    (hdet : IsUnit (x.transpose * x + ridgeDiag m p.nu).det) :
    (x.transpose * x + ridgeDiag m p.nu) * (sr3Step p x y prox s).coefFull
        = x.transpose * y + p.nu⁻¹ • s.coefSparse
    ∧ (sr3Step p x y prox s).cho = s.cho
    ∧ (sr3Step p x y prox s).xty = s.xty := by
  have hfull : (sr3Step p x y prox s).coefFull
      = updateFullCoef p.nu s.cho s.xty s.coefSparse := by
    simp [sr3Step, hT]
  refine ⟨?_, by simp [sr3Step, hT], by simp [sr3Step, hT]⟩
  rw [hfull, updateFullCoef, cho_solve, hcho, hxty, ← Matrix.mul_assoc,
    Matrix.mul_nonsing_inv _ hdet, Matrix.one_mul]

/-- Witness for C2, at a concrete one-dimensional instance
(`X = [[1]]`, `ν = 1`, so the system matrix is `[[2]]`). -/
theorem full_coef_solves_ridge_system_witness :
    pNT.useTrimming = false
    ∧ IsUnit ((cM 1).transpose * cM 1 + ridgeDiag 1 pNT.nu).det
    ∧ ((cM 1).transpose * cM 1 + ridgeDiag 1 pNT.nu)
          * (sr3Step pNT (cM 1) (cM 1) proxZero (sr3InitState pNT (cM 1) (cM 1) 0)).coefFull
        = (cM 1).transpose * cM 1
          + pNT.nu⁻¹ • (sr3InitState pNT (cM 1) (cM 1) 0).coefSparse := by
  have hdet : IsUnit ((cM 1).transpose * cM 1 + ridgeDiag 1 pNT.nu).det := by
    have h2 : (cM 1).transpose * cM 1 + ridgeDiag 1 pNT.nu = cM 2 := by
      have hnu : pNT.nu = 1 := rfl
      rw [cM_transpose, cM_mul, hnu, ridgeDiag_one, cM_add]
      norm_num
    rw [h2]
    have hd : (cM 2).det = 2 := by
      rw [Matrix.det_fin_one]
      rfl
    rw [hd]
    exact isUnit_iff_ne_zero.mpr two_ne_zero
  have hmain := full_coef_solves_ridge_system pNT (cM 1) (cM 1) proxZero
    (sr3InitState pNT (cM 1) (cM 1) 0) rfl rfl rfl hdet
  exact ⟨rfl, hdet, hmain.1⟩

/-- C3: with trimming disabled, the system matrix and `XᵀY` are
computed once before the loop (from the unweighted data) and never
changed by the loop; with trimming enabled, each step recomputes them
from the weighted design matrix — the transposed factor has its rows
scaled by the current trimming weights — and solves with them. -/
theorem factorization_reuse {n m t : ℕ} (p : SR3Params) (x : Matrix (Fin n) (Fin m) ℝ)
    (y : Matrix (Fin n) (Fin t) ℝ)
    (prox : Matrix (Fin m) (Fin t) ℝ → Matrix (Fin m) (Fin t) ℝ) :
    (p.useTrimming = false →
      (∀ coef0 : Matrix (Fin t) (Fin m) ℝ,
          (sr3InitState p x y coef0).cho = x.transpose * x + ridgeDiag m p.nu
          ∧ (sr3InitState p x y coef0).xty = x.transpose * y)
      ∧ (∀ s : IterState n m t,
          (sr3Step p x y prox s).cho = s.cho ∧ (sr3Step p x y prox s).xty = s.xty)
      ∧ (∀ (fuel : ℕ) (s : IterState n m t),
          (sr3Loop p x y prox fuel s).1.cho = s.cho
          ∧ (sr3Loop p x y prox fuel s).1.xty = s.xty))
    ∧ (p.useTrimming = true →
      ∀ s : IterState n m t,
        (sr3Step p x y prox s).cho
            = (scaleRows s.trimmingArray x).transpose * x + ridgeDiag m p.nu
        ∧ (sr3Step p x y prox s).xty = (scaleRows s.trimmingArray x).transpose * y
        ∧ (sr3Step p x y prox s).coefFull
            = updateFullCoef p.nu
                ((scaleRows s.trimmingArray x).transpose * x + ridgeDiag m p.nu)
                ((scaleRows s.trimmingArray x).transpose * y) s.coefSparse) := by
  constructor
  · intro hT
    refine ⟨fun coef0 => ⟨rfl, rfl⟩, fun s => ⟨by simp [sr3Step, hT], by simp [sr3Step, hT]⟩, ?_⟩
    intro fuel
    induction fuel with
    | zero => intro s; exact ⟨rfl, rfl⟩
    | succ k ih =>
      intro s
      by_cases h : convergenceCriterion p (sr3Step p x y prox s) < p.tol
      · rw [sr3Loop_stop p x y prox s k h]
        exact ⟨by simp [sr3Step, hT], by simp [sr3Step, hT]⟩
      · rw [sr3Loop_continue p x y prox s k h]
        have hstep : (sr3Step p x y prox s).cho = s.cho ∧ (sr3Step p x y prox s).xty = s.xty :=
          ⟨by simp [sr3Step, hT], by simp [sr3Step, hT]⟩
        have h2 := ih (sr3Step p x y prox s)
        exact ⟨h2.1.trans hstep.1, h2.2.trans hstep.2⟩
  · intro hT s
    exact ⟨by simp [sr3Step, hT], by simp [sr3Step, hT], by simp [sr3Step, hT]⟩

/-- Witness for C3, covering both the trimming-disabled and the
trimming-enabled cases at concrete parameters. -/
theorem factorization_reuse_witness :
    (∀ (fuel : ℕ) (s : IterState 1 1 1),
        (sr3Loop pNT (cM 1) (cM 1) proxZero fuel s).1.cho = s.cho
        ∧ (sr3Loop pNT (cM 1) (cM 1) proxZero fuel s).1.xty = s.xty)
    ∧ (sr3Step pTR (cM 1) (cM 1) proxZero sTR).cho
        = (scaleRows sTR.trimmingArray (cM 1)).transpose * cM 1 + ridgeDiag 1 pTR.nu := by
  constructor
  · exact ((factorization_reuse pNT (cM 1) (cM 1) proxZero).1 rfl).2.2
  · exact (((factorization_reuse pTR (cM 1) (cM 1) proxZero).2 rfl) sTR).1

theorem sTR_cho_eval :
    (scaleRows sTR.trimmingArray (cM 1)).transpose * cM 1 + ridgeDiag 1 pTR.nu = cM 2 := by
  have hw : sTR.trimmingArray = fun _ => (1 : ℝ) := rfl
  have hnu : pTR.nu = 1 := rfl
  rw [hw, scaleRows_cM, cM_transpose, cM_mul, hnu, ridgeDiag_one, cM_add]
  norm_num

theorem sTR_xty_eval :
    (scaleRows sTR.trimmingArray (cM 1)).transpose * cM 1 = cM 1 := by
  have hw : sTR.trimmingArray = fun _ => (1 : ℝ) := rfl
  rw [hw, scaleRows_cM, cM_transpose, cM_mul]
  norm_num

theorem sTR_step_coefFull_eval :
    (sr3Step pTR (cM 1) (cM 1) id sTR).coefFull = cM (1 / 2) := by
  have hT : pTR.useTrimming = true := rfl
  have hstep : (sr3Step pTR (cM 1) (cM 1) id sTR).coefFull
      = updateFullCoef pTR.nu
          ((scaleRows sTR.trimmingArray (cM 1)).transpose * cM 1 + ridgeDiag 1 pTR.nu)
          ((scaleRows sTR.trimmingArray (cM 1)).transpose * cM 1) sTR.coefSparse := by
    simp [sr3Step, hT]
  have hcs : sTR.coefSparse = 0 := rfl
  rw [hstep, sTR_cho_eval, sTR_xty_eval, hcs, updateFullCoef, cho_solve, smul_zero,
    add_zero, cM_inv 2 two_ne_zero, cM_mul]
  norm_num

/-- C4 counterexample: in an iteration with trimming active, the
gradient the loop body actually feeds to the trimming update
(`stepTrimmingGrad`, computed on line 306 from the *previous*
iteration's full coefficients, before the line-307 update) is **not**
the half-squared residual of the just-updated full coefficients, as
the claim's ordering ("first updates the full coefficients, ... then
computes a per-sample gradient ... of the full-coefficient prediction")
asserts: at `X = Y = [[1]]`, `ν = step = 1`, zero previous coefficients
and unit weight, the code's gradient is `1/2` while the claimed one is
`1/8`. -/
theorem trimming_grad_counterexample :
    stepTrimmingGrad (cM 1) (cM 1) sTR
      ≠ trimmingGrad (cM 1) (cM 1) (sr3Step pTR (cM 1) (cM 1) id sTR).coefFull := by
  intro hEq
  have h0 := congrFun hEq 0
  have hL : stepTrimmingGrad (cM 1) (cM 1) sTR 0 = 1 / 2 := by
    have hcf : sTR.coefFull = 0 := rfl
    norm_num [stepTrimmingGrad, trimmingGrad, hcf, cM, Matrix.mul_apply]
  have hR : trimmingGrad (cM 1) (cM 1) (sr3Step pTR (cM 1) (cM 1) id sTR).coefFull 0
      = 1 / 8 := by
    rw [sTR_step_coefFull_eval]
    norm_num [trimmingGrad, cM, Matrix.mul_apply]
  rw [hL, hR] at h0
  norm_num at h0

/-- C4 (amended): in every iteration with trimming active, the loop
body computes the per-sample gradient (one-half the squared residual,
summed across targets) from the *previous* iteration's full
coefficients, then updates the full coefficients (from the
weight-rescaled system), then the sparse coefficients, then takes a
gradient-descent step of fixed size `trimming_step_size` against that
gradient and projects onto the capped simplex; the resulting weights
are the ones the next iteration's solver reweighting reads. -/
theorem trimming_step_order {n m t : ℕ} (p : SR3Params) (x : Matrix (Fin n) (Fin m) ℝ)
    (y : Matrix (Fin n) (Fin t) ℝ)
    (prox : Matrix (Fin m) (Fin t) ℝ → Matrix (Fin m) (Fin t) ℝ) (s : IterState n m t)
    (hT : p.useTrimming = true) :
    (sr3Step p x y prox s).coefFull
        = updateFullCoef p.nu ((scaleRows s.trimmingArray x).transpose * x + ridgeDiag m p.nu)
            ((scaleRows s.trimmingArray x).transpose * y) s.coefSparse
    ∧ (sr3Step p x y prox s).coefSparse = updateSparseCoef prox (sr3Step p x y prox s).coefFull
    ∧ (sr3Step p x y prox s).trimmingArray
        = capped_simplex_projection
            (fun i => s.trimmingArray i - p.trimmingStepSize * trimmingGrad x y s.coefFull i)
            p.trimmingFraction
    ∧ (sr3Step p x y prox (sr3Step p x y prox s)).cho
        = (scaleRows (sr3Step p x y prox s).trimmingArray x).transpose * x + ridgeDiag m p.nu := by
  refine ⟨by simp [sr3Step, hT], by simp [sr3Step, hT], ?_, by simp [sr3Step, hT]⟩
  simp [sr3Step, hT, updateTrimmingArray, stepTrimmingGrad]

/-- Witness for the amended C4, at the concrete trimming-enabled
instance. -/
theorem trimming_step_order_witness :
    pTR.useTrimming = true
    ∧ (sr3Step pTR (cM 1) (cM 1) id sTR).trimmingArray
        = capped_simplex_projection
            (fun i => sTR.trimmingArray i
              - pTR.trimmingStepSize * trimmingGrad (cM 1) (cM 1) sTR.coefFull i)
            pTR.trimmingFraction :=
  ⟨rfl, (trimming_step_order pTR (cM 1) (cM 1) id sTR rfl).2.2.1⟩

theorem clamp01_nonneg (z : ℝ) : 0 ≤ clamp01 z := le_max_left 0 _

theorem clamp01_le_one (z : ℝ) : clamp01 z ≤ 1 :=
  max_le (by norm_num) (min_le_left 1 z)

theorem clampedSum_continuous {n : ℕ} (v : Fin n → ℝ) : Continuous (clampedSum v) := by
  unfold clampedSum clamp01
  exact continuous_finset_sum _ fun i _ =>
    continuous_const.max (continuous_const.min (continuous_const.sub continuous_id))

theorem clampedSum_surj {n : ℕ} (v : Fin n → ℝ) (T : ℝ) (h0 : 0 ≤ T) (hn : T ≤ (n : ℝ)) :
    ∃ z, clampedSum v z = T := by
  rcases Nat.eq_zero_or_pos n with hn0 | hpos
  · subst hn0
    refine ⟨0, ?_⟩
    have hT0 : T = 0 := le_antisymm (by simpa using hn) h0
    simp [clampedSum, hT0]
  · haveI : Nonempty (Fin n) := ⟨⟨0, hpos⟩⟩
    set a := (Finset.univ.inf' Finset.univ_nonempty v) - 1 with ha
    set b := Finset.univ.sup' Finset.univ_nonempty v with hb
    have hab : a ≤ b := by
      have h1 : Finset.univ.inf' Finset.univ_nonempty v ≤ v ⟨0, hpos⟩ :=
        Finset.inf'_le _ (Finset.mem_univ _)
      have h2 : v ⟨0, hpos⟩ ≤ b := Finset.le_sup' _ (Finset.mem_univ _)
      rw [ha]
      linarith
    have hga : clampedSum v a = n := by
      unfold clampedSum
      have hone : ∀ i, clamp01 (v i - a) = 1 := by
        intro i
        have h1 : Finset.univ.inf' Finset.univ_nonempty v ≤ v i :=
          Finset.inf'_le _ (Finset.mem_univ _)
        have h2 : (1 : ℝ) ≤ v i - a := by
          rw [ha]
          linarith
        unfold clamp01
        rw [min_eq_left h2, max_eq_right (by norm_num : (0 : ℝ) ≤ 1)]
      rw [Finset.sum_congr rfl fun i _ => hone i]
      simp
    have hgb : clampedSum v b = 0 := by
      unfold clampedSum
      apply Finset.sum_eq_zero
      intro i _
      have h1 : v i ≤ b := Finset.le_sup' _ (Finset.mem_univ _)
      unfold clamp01
      rw [min_eq_right (by linarith : v i - b ≤ 1), max_eq_left (by linarith : v i - b ≤ 0)]
    have hioc := intermediate_value_Icc' hab (clampedSum_continuous v).continuousOn
    have hT : T ∈ Set.Icc (clampedSum v b) (clampedSum v a) := by
      rw [hga, hgb]
      exact ⟨h0, hn⟩
    obtain ⟨z, _, hz⟩ := hioc hT
    exact ⟨z, hz⟩

theorem capped_simplex_projection_mem {n : ℕ} (v : Fin n → ℝ) (f : ℝ)
    (hf0 : 0 ≤ f) (hf1 : f ≤ 1) :
    (∀ i, 0 ≤ capped_simplex_projection v f i ∧ capped_simplex_projection v f i ≤ 1)
    ∧ ∑ i, capped_simplex_projection v f i = (1 - f) * n := by
  constructor
  · intro i
    exact ⟨clamp01_nonneg _, clamp01_le_one _⟩
  · have hex : ∃ z, clampedSum v z = (1 - f) * n := by
      apply clampedSum_surj
      · exact mul_nonneg (by linarith) (Nat.cast_nonneg n)
      · calc (1 - f) * (n : ℝ) ≤ 1 * n :=
              mul_le_mul_of_nonneg_right (by linarith) (Nat.cast_nonneg n)
          _ = n := one_mul _
    have hsum : ∑ i, capped_simplex_projection v f i = clampedSum v (shiftRoot f v) := rfl
    rw [hsum, shiftRoot, dif_pos hex]
    exact hex.choose_spec

/-- C8: with trimming active, the weight vector starts uniformly at
`1 - trimming_fraction` (and is recorded as the first trimming-history
entry), and every trimming-weight update (the capped-simplex
projection) produces a vector with all entries in `[0, 1]` summing to
`(1 - trimming_fraction) * n_samples`. -/
theorem trimming_weights_invariant {n m t : ℕ} (p : SR3Params)
    (hf0 : 0 ≤ p.trimmingFraction) (hf1 : p.trimmingFraction ≤ 1) :
    (∀ (x : Matrix (Fin n) (Fin m) ℝ) (y : Matrix (Fin n) (Fin t) ℝ)
        (coef0 : Matrix (Fin t) (Fin m) ℝ),
        p.useTrimming = true →
        (sr3InitState p x y coef0).trimmingArray = (fun _ => 1 - p.trimmingFraction)
        ∧ (sr3InitState p x y coef0).historyTrimming = [fun _ => 1 - p.trimmingFraction])
    ∧ ∀ w g : Fin n → ℝ,
        (∀ i, 0 ≤ updateTrimmingArray p w g i ∧ updateTrimmingArray p w g i ≤ 1)
        ∧ ∑ i, updateTrimmingArray p w g i = (1 - p.trimmingFraction) * n := by
  constructor
  · intro x y coef0 hT
    exact ⟨rfl, by simp [sr3InitState, hT]⟩
  · intro w g
    exact capped_simplex_projection_mem
      (fun i => w i - p.trimmingStepSize * g i) p.trimmingFraction hf0 hf1

/-- Witness for C8, at concrete trimming parameters
(`trimming_fraction = 1/2`, one sample). -/
theorem trimming_weights_invariant_witness :
    (0 : ℝ) ≤ pTR.trimmingFraction ∧ pTR.trimmingFraction ≤ 1
    ∧ (sr3InitState pTR (cM 1) (cM 1) 0).trimmingArray = (fun _ => 1 - pTR.trimmingFraction)
    ∧ ∑ i, updateTrimmingArray pTR (fun _ : Fin 1 => 5) (fun _ => 3) i
        = (1 - pTR.trimmingFraction) * ((1 : ℕ) : ℝ) := by
  have hf0 : (0 : ℝ) ≤ pTR.trimmingFraction := by norm_num [pTR]
  have hf1 : pTR.trimmingFraction ≤ 1 := by norm_num [pTR]
  exact ⟨hf0, hf1,
    ((@trimming_weights_invariant 1 1 1 pTR hf0 hf1).1 (cM 1) (cM 1) 0 rfl).1,
    ((@trimming_weights_invariant 1 1 1 pTR hf0 hf1).2 (fun _ => 5) (fun _ => 3)).2⟩

theorem weightedPrefix_iff_mem (s : List Char) (hval : strLower s ∈ validThresholders) :
    weightedPrefixTest s ↔ strLower s ∈ weightedThresholders := by
  unfold weightedPrefixTest
  have hcomm : strLower (s.take 8) = (strLower s).take 8 := List.map_take _ _ _
  rw [hcomm]
  simp only [validThresholders, List.mem_cons, List.mem_singleton,
    List.not_mem_nil, or_false] at hval
  rcases hval with h | h | h | h | h | h | h <;> rw [h] <;> decide

/-- C5: construction fails (raises) exactly when the threshold is
negative, `ν` is non-positive, the tolerance is non-positive, the
trimming fraction lies outside `[0, 1]`, the thresholder name is not
recognized (compared case-insensitively), a weighted thresholder is
selected without a thresholds matrix, a thresholds matrix is supplied
without a weighted thresholder, or the thresholds matrix contains a
negative entry; otherwise construction succeeds. -/
theorem init_error_iff (threshold : ℝ) (thresholds : Option (List (List ℝ)))
    (nu tol : ℝ) (thresholder : List Char) (tf tss : ℝ) (mi : ℕ) :
    (∃ e, SR3.init threshold thresholds nu tol thresholder tf tss mi = Except.error e)
    ↔ (threshold < 0 ∨ nu ≤ 0 ∨ tol ≤ 0 ∨ tf < 0 ∨ 1 < tf
      ∨ strLower thresholder ∉ validThresholders
      ∨ (strLower thresholder ∈ weightedThresholders ∧ thresholds = none)
      ∨ (strLower thresholder ∉ weightedThresholders ∧ thresholds ≠ none)
      ∨ ∃ ts, thresholds = some ts ∧ ∃ row ∈ ts, ∃ e ∈ row, e < 0) := by
  unfold SR3.init
  by_cases h1 : threshold < 0
  · rw [if_pos h1]
    exact iff_of_true ⟨_, rfl⟩ (Or.inl h1)
  rw [if_neg h1]
  by_cases h2 : nu ≤ 0
  · rw [if_pos h2]
    exact iff_of_true ⟨_, rfl⟩ (Or.inr (Or.inl h2))
  rw [if_neg h2]
  by_cases h3 : tol ≤ 0
  · rw [if_pos h3]
    exact iff_of_true ⟨_, rfl⟩ (Or.inr (Or.inr (Or.inl h3)))
  rw [if_neg h3]
  by_cases h4 : tf < 0 ∨ 1 < tf
  · rw [if_pos h4]
    rcases h4 with h4a | h4b
    · exact iff_of_true ⟨_, rfl⟩ (Or.inr (Or.inr (Or.inr (Or.inl h4a))))
    · exact iff_of_true ⟨_, rfl⟩ (Or.inr (Or.inr (Or.inr (Or.inr (Or.inl h4b)))))
  rw [if_neg h4]
  by_cases h5 : strLower thresholder ∉ validThresholders
  · rw [if_pos h5]
    exact iff_of_true ⟨_, rfl⟩
      (Or.inr (Or.inr (Or.inr (Or.inr (Or.inr (Or.inl h5))))))
  rw [if_neg h5]
  have hval := not_not.mp h5
  by_cases h6 : weightedPrefixTest thresholder ∧ thresholds.isNone
  · rw [if_pos h6]
    exact iff_of_true ⟨_, rfl⟩
      (Or.inr (Or.inr (Or.inr (Or.inr (Or.inr (Or.inr (Or.inl
        ⟨(weightedPrefix_iff_mem thresholder hval).mp h6.1,
         Option.isNone_iff_eq_none.mp h6.2⟩)))))))
  rw [if_neg h6]
  by_cases h7 : ¬ weightedPrefixTest thresholder ∧ thresholds.isSome
  · rw [if_pos h7]
    exact iff_of_true ⟨_, rfl⟩
      (Or.inr (Or.inr (Or.inr (Or.inr (Or.inr (Or.inr (Or.inr (Or.inl
        ⟨fun hw => h7.1 ((weightedPrefix_iff_mem thresholder hval).mpr hw),
         Option.ne_none_iff_isSome.mpr h7.2⟩))))))))
  rw [if_neg h7]
  by_cases h8 : ((thresholds.getD []).any fun row => row.any fun e => decide (e < 0)) = true
  · rw [if_pos h8]
    rcases othr : thresholds with _ | ts
    · rw [othr] at h8
      simp at h8
    · rw [othr] at h8
      simp only [Option.getD_some, List.any_eq_true, decide_eq_true_eq] at h8
      obtain ⟨row, hrow, e, he, hlt⟩ := h8
      exact iff_of_true ⟨_, rfl⟩
        (Or.inr (Or.inr (Or.inr (Or.inr (Or.inr (Or.inr (Or.inr (Or.inr
          ⟨ts, rfl, row, hrow, e, he, hlt⟩))))))))
  rw [if_neg h8]
  refine iff_of_false (by simp) ?_
  intro hcon
  rcases hcon with h | h | h | h | h | h | h | h | h
  · exact h1 h
  · exact h2 h
  · exact h3 h
  · exact h4 (Or.inl h)
  · exact h4 (Or.inr h)
  · exact h5 h
  · exact h6 ⟨(weightedPrefix_iff_mem thresholder hval).mpr h.1,
      Option.isNone_iff_eq_none.mpr h.2⟩
  · exact h7 ⟨fun hp => h.1 ((weightedPrefix_iff_mem thresholder hval).mp hp),
      Option.ne_none_iff_isSome.mp h.2⟩
  · obtain ⟨ts, hts, row, hrow, e, he, hlt⟩ := h
    apply h8
    rw [hts]
    simp only [Option.getD_some, List.any_eq_true, decide_eq_true_eq]
    exact ⟨row, hrow, e, he, hlt⟩

end PySINDy
